import Mathlib

/-!
# Stake accounting and reward engine of `ex02.go` (AerialCC chaincode)

A shallow embedding of the proof-of-stake part of `src/ex02.go`:
`getCoinAge`, `getProofOfStakeReward` and `MinePoS`, and of the balance
transfer `MakePayment`, together with the ledger store they read and write.

Modelling conventions.

* Go `int` is the 64-bit signed integer.  A value is an `Int`, and `wrap64`
  brings a result back into the range from `-2^63` to `2^63 - 1` the way
  two's-complement arithmetic does.  Every product, every addition to the
  running coin-age total and the quotient of the reward wrap around.  The sums
  and differences of times and ages (`Time + stakeMinAge`, `now - Time`,
  `now - stakeStartTime`) and the balance updates of `MinePoS` and
  `MakePayment` are taken exactly: they differ from Go's only when a time or a
  balance lies within the other operand's distance of an end of the range.
* Go `/` on integers truncates toward zero: it is `Int.tdiv`.
* The source writes powers as `10**9` and `10**t.decimals`; they are read as
  `10 ^ 9` and `10 ^ t.decimals`.  Go gives `/` and `*` the same precedence and
  associates them to the left, so `nCoinSeconds / 86400*(10**9)` is
  `(nCoinSeconds / 86400) * 10 ^ 9`.
* The ledger store (`shim.ChaincodeStubInterface`) is a pair of finite maps:
  the balances, keyed by address, and the stake history logs, keyed by the
  address whose `sha256(address ++ "transferIn")` digest is the storage key.
  The digest is taken to be collision free and disjoint from the address keys.
  A history entry is `none` when the key is absent or the stored bytes do not
  decode (`json.Unmarshal` reports an error on both), and `some um` when they
  decode to the record sequence `um`.
* `time.Now().Unix()` is the transaction time `now`, passed explicitly.
* `t.maxMintProofOfStake` / `maxMintProofOfStake` in `getProofOfStakeReward`
  name the one struct field `maxMineProofOfStake`.
-/

namespace Cryptorial

/-! ## Data model -/

/-- Two's-complement wrap-around of a Go `int` result: the value congruent to
`x` modulo `2^64` that lies between `-2^63` and `2^63 - 1`.  The constants are
`2^63 = 9223372036854775808` and `2^64 = 18446744073709551616`. -/
def wrap64 (x : Int) : Int :=
  (x + 9223372036854775808) % 18446744073709551616 - 9223372036854775808

/-- Source line 39: `const oneDayUnixTime int = 86400*(10**9)`. -/
def oneDayUnixTime : Int := 86400 * 10 ^ 9

/-- Source line 40: `const oneYearUnixTime int = 365*86400*(10**9)`. -/
def oneYearUnixTime : Int := 365 * 86400 * 10 ^ 9

/-- The contract state `AerialCC` (source lines 42-58).  `decimals` is only
used as the exponent of `10**t.decimals`, hence a natural number. -/
structure AerialCC where
  name : String
  symbol : String
  decimals : Nat
  chainStartTime : Int
  chainStartBlockNumber : Int
  stakeStartTime : Int
  stakeMinAge : Int
  stakeMaxAge : Int
  maxMineProofOfStake : Int
  totalSupply : Int
  maxTotalSupply : Int
  totalInitialSupply : Int

/-- One stake record, `TransferInStruct` (source lines 60-64). -/
structure TransferInStruct where
  Address : String
  Amount : Int
  Time : Int
  deriving DecidableEq, Repr

/-- The ledger store behind `shim.ChaincodeStubInterface`. -/
structure Stub where
  balance : String → Option Int
  transferIns : String → Option (List TransferInStruct)

/-- Reading a balance key, `stub.GetState(key)`; `none` is the error return
for a missing key. -/
def Stub.GetState (stub : Stub) (key : String) : Option Int :=
  stub.balance key

/-- Writing a balance key, `stub.PutState(key, []byte(strconv.Itoa(v)))`. -/
def Stub.PutState (stub : Stub) (key : String) (v : Int) : Stub :=
  { stub with balance := fun k => if k = key then some v else stub.balance k }

/-- Reading the history log of `party`: `stub.GetState(transferinsID.Sum(nil))`
followed by `json.Unmarshal`. -/
def Stub.GetTransferIns (stub : Stub) (party : String) : Option (List TransferInStruct) :=
  stub.transferIns party

/-- Writing the history log of `party`: `json.Marshal` followed by
`stub.PutState(transferinsID.Sum(), um)`. -/
def Stub.PutTransferIns (stub : Stub) (party : String) (um : List TransferInStruct) : Stub :=
  { stub with transferIns := fun k => if k = party then some um else stub.transferIns k }

/-! ## Coin-age (source lines 256-286) -/

/-- The body of the `for` loop of `getCoinAge` (source lines 275-283), as a
function of the running total `coinAge` and the record `r`. -/
def coinAgeStep (t : AerialCC) (now : Int) (coinAge : Int) (r : TransferInStruct) : Int :=
  if now < r.Time + t.stakeMinAge then coinAge
  else
    let nCoinSeconds := now - r.Time
    let nCoinSeconds := if nCoinSeconds > t.stakeMaxAge then t.stakeMaxAge else nCoinSeconds
    wrap64 (coinAge + wrap64 (r.Amount * wrap64 (Int.tdiv nCoinSeconds 86400 * 10 ^ 9)))

/-- The function `getCoinAge` (source lines 256-286): value and flag. -/
def getCoinAge (t : AerialCC) (stub : Stub) (party : String) (now : Int) : Int × Bool :=
  match stub.GetTransferIns party with
  | none => (0, false)
  | some um =>
    if um.length ≤ 0 then (0, false)
    else (um.foldl (coinAgeStep t now) 0, true)

/-- The term the loop of `getCoinAge` adds for the record `r`, taken over the
integers, without wrap-around: `0` for a skipped record. -/
def coinAgeTerm (t : AerialCC) (now : Int) (r : TransferInStruct) : Int :=
  if now < r.Time + t.stakeMinAge then 0
  else
    r.Amount * (Int.tdiv
      (if now - r.Time > t.stakeMaxAge then t.stakeMaxAge else now - r.Time) 86400 * 10 ^ 9)

/-- The total of the terms of the loop over a history, taken over the
integers, without wrap-around.  It is used to say that a run of the loop does
not overflow. -/
def coinAgeExact (t : AerialCC) (now : Int) (um : List TransferInStruct) : Int :=
  (um.map (coinAgeTerm t now)).sum

/-- The coin-age in the words of the specification: the sum, over the records
with `now >= record.time + stakeMinAge`, of
`record.amount * (min(now - record.time, stakeMaxAge) / 86400)`. -/
def specCoinAge (um : List TransferInStruct) (now stakeMinAge stakeMaxAge : Int) : Int :=
  ((um.filter (fun r => decide (r.Time + stakeMinAge ≤ now))).map
    (fun r => r.Amount * Int.tdiv (min (now - r.Time) stakeMaxAge) 86400)).sum

/-! ## Reward (source lines 232-254) -/

/-- The local variable `interest` of `getProofOfStakeReward` after the tier
selection (source lines 244-250). -/
def interest (t : AerialCC) (now : Int) : Int :=
  if Int.tdiv (now - t.stakeStartTime) oneYearUnixTime = 0 then
    Int.tdiv (wrap64 (770 * t.maxMineProofOfStake)) 100
  else if Int.tdiv (now - t.stakeStartTime) oneYearUnixTime = 1 then
    Int.tdiv (wrap64 (435 * t.maxMineProofOfStake)) 100
  else t.maxMineProofOfStake

/-- The function `getProofOfStakeReward` (source lines 232-254).  The dividend
`_coinAge * interest`, the divisor `365 * (10**t.decimals)` and the quotient
are 64-bit results.  For `decimals >= 64` the divisor wraps to `0`, where Go
stops with a run-time panic (division by zero) before any write; the model
returns the quotient `0` there, which `MinePoS` treats as no reward, also
without any write. -/
def getProofOfStakeReward (t : AerialCC) (stub : Stub) (party : String) (now : Int) :
    Int × Bool :=
  if now ≤ t.stakeStartTime ∨ t.stakeStartTime ≤ 0 then (0, false)
  else
    let coinAge := (getCoinAge t stub party now).1
    if coinAge ≤ 0 then (0, false)
    else
      (wrap64 (Int.tdiv (wrap64 (coinAge * interest t now))
        (wrap64 (365 * wrap64 (10 ^ t.decimals)))), true)

/-- The interest tier in the words of the specification, with
`secondsPerYear = 365 * 86400`. -/
def specInterest (now stakeStartTime maxMintProofOfStake : Int) : Int :=
  let elapsedYears := Int.tdiv (now - stakeStartTime) (365 * 86400)
  if elapsedYears = 0 then Int.tdiv (maxMintProofOfStake * 770) 100
  else if elapsedYears = 1 then Int.tdiv (maxMintProofOfStake * 435) 100
  else maxMintProofOfStake

/-! ## Mint (source lines 180-230) -/

/-- The errors a transaction can end with. -/
inductive Failure where
  | accountNotFound
  | unmarshal
  | supplyCapExceeded
  deriving DecidableEq, Repr

/-- Modelled from the spec: the method `increaseTotalSupply`, called by
`MinePoS` at source line 208, has no definition in the source file.  The
specification (section 4.5, step 5) says: the new total supply
(`totalSupply + reward`) must not exceed `maxTotalSupply`; if it would, abort
with `SupplyCapExceeded` and mutate nothing; otherwise `totalSupply` is
increased by the reward.  `none` is the `SupplyCapExceeded` error. -/
def increaseTotalSupply (t : AerialCC) (reward : Int) : Option AerialCC :=
  if t.totalSupply + reward > t.maxTotalSupply then none
  else some { t with totalSupply := t.totalSupply + reward }

/-- What a `MinePoS` call leaves behind: the two return values and the
contract state and ledger store after the call. -/
structure MineResult where
  ok : Bool
  err : Option Failure
  t : AerialCC
  stub : Stub

/-- The function `MinePoS` (source lines 180-230).  Store writes succeed. -/
def MinePoS (t : AerialCC) (stub : Stub) (party : String) (now : Int) : MineResult :=
  match stub.GetState party with
  | none => ⟨false, some Failure.accountNotFound, t, stub⟩
  | some src =>
    match stub.GetTransferIns party with
    | none => ⟨false, some Failure.unmarshal, t, stub⟩
    | some um =>
      if um.length ≤ 0 then ⟨false, none, t, stub⟩
      else
        let reward := (getProofOfStakeReward t stub party now).1
        if reward ≤ 0 then ⟨false, none, t, stub⟩
        else
          match increaseTotalSupply t reward with
          | none => ⟨false, some Failure.supplyCapExceeded, t, stub⟩
          | some t1 =>
            let src := src + reward
            let stub1 := stub.PutState party src
            let um1 : List TransferInStruct := [⟨party, src + reward, now⟩]
            ⟨true, none, t1, stub1.PutTransferIns party um1⟩

/-- The state a successful `MinePoS` leaves: the total supply raised by the
reward, the balance raised by the reward, and the history replaced by one
record. -/
def mintedResult (t : AerialCC) (stub : Stub) (party : String) (now src reward : Int) :
    MineResult :=
  ⟨true, none, { t with totalSupply := t.totalSupply + reward },
    (stub.PutState party (src + reward)).PutTransferIns party
      [⟨party, src + reward + reward, now⟩]⟩

/-! ## Balance transfer (source lines 118-153) -/

/-- What a `MakePayment` call leaves behind: the error, if any, and the ledger
store after the call. -/
structure PayResult where
  err : Option Failure
  stub : Stub

/-- The function `MakePayment` (source lines 119-153), moving `X` units from
`partySrc` to `partyDst`.  Store writes succeed. -/
def MakePayment (stub : Stub) (partySrc partyDst : String) (X : Int) : PayResult :=
  match stub.GetState partySrc with
  | none => ⟨some Failure.accountNotFound, stub⟩
  | some src =>
    match stub.GetState partyDst with
    | none => ⟨some Failure.accountNotFound, stub⟩
    | some dst =>
      let src := src - X
      let dst := dst + X
      let stub1 := stub.PutState partySrc src
      ⟨none, stub1.PutState partyDst dst⟩

/-! ## Concrete configurations and stores used by the evaluations -/

/-- A contract state with the given staking parameters, `decimals = 0`, total
supply 1000 and the largest `int`, `2^63 - 1`, as the supply cap. -/
def mkConfig (stakeStartTime stakeMinAge stakeMaxAge maxMine : Int) : AerialCC :=
  { name := "Aerial", symbol := "AER", decimals := 0,
    chainStartTime := 0, chainStartBlockNumber := 0,
    stakeStartTime := stakeStartTime, stakeMinAge := stakeMinAge,
    stakeMaxAge := stakeMaxAge, maxMineProofOfStake := maxMine,
    totalSupply := 1000, maxTotalSupply := 9223372036854775807,
    totalInitialSupply := 1000 }

/-- A store holding one account `party` with balance `bal` and history `um`. -/
def mkStub (party : String) (bal : Int) (um : List TransferInStruct) : Stub :=
  { balance := fun k => if k = party then some bal else none,
    transferIns := fun k => if k = party then some um else none }

/-- A store holding one account `party` with balance `bal` and no history key. -/
def mkStubNoLog (party : String) (bal : Int) : Stub :=
  { balance := fun k => if k = party then some bal else none,
    transferIns := fun _ => none }

/-- A store holding two accounts, `a` with balance `balA` and `b` with balance
`balB`, and no history key. -/
def mkStub2 (a : String) (balA : Int) (b : String) (balB : Int) : Stub :=
  { balance := fun k => if k = a then some balA else if k = b then some balB else none,
    transferIns := fun _ => none }

/-! ## Lemmas on wrap-around -/

theorem wrap64_of_range (x : Int) (h1 : -2 ^ 63 ≤ x) (h2 : x < 2 ^ 63) : wrap64 x = x := by
  norm_num at h1 h2
  unfold wrap64
  rw [Int.emod_eq_of_lt (by omega) (by omega)]
  ring

theorem wrap64_range (x : Int) : -2 ^ 63 ≤ wrap64 x ∧ wrap64 x < 2 ^ 63 := by
  unfold wrap64
  have h1 := Int.emod_nonneg (x + 9223372036854775808)
    (by norm_num : (18446744073709551616 : Int) ≠ 0)
  have h2 := Int.emod_lt_of_pos (x + 9223372036854775808)
    (by norm_num : (0 : Int) < 18446744073709551616)
  norm_num
  constructor <;> omega

theorem wrap64_modEq (x : Int) : wrap64 x ≡ x [ZMOD 18446744073709551616] := by
  unfold wrap64
  have h : (x + 9223372036854775808) % 18446744073709551616
      ≡ x + 9223372036854775808 [ZMOD 18446744073709551616] := Int.mod_modEq _ _
  have h2 := h.sub_right 9223372036854775808
  simpa using h2

theorem wrap64_congr {a b : Int} (h : a ≡ b [ZMOD 18446744073709551616]) :
    wrap64 a = wrap64 b := by
  unfold wrap64
  have h2 : (a + 9223372036854775808) % 18446744073709551616
      = (b + 9223372036854775808) % 18446744073709551616 := h.add_right 9223372036854775808
  rw [h2]

theorem wrap64_idem (x : Int) : wrap64 (wrap64 x) = wrap64 x :=
  wrap64_congr (wrap64_modEq x)

theorem wrap64_zero : wrap64 0 = 0 := by decide

/-- The three wrapped operations of one loop step amount to one wrap-around
of the exact sum. -/
theorem wrap64_step (acc a d : Int) :
    wrap64 (acc + wrap64 (a * wrap64 (d * 10 ^ 9))) = wrap64 (acc + a * (d * 10 ^ 9)) := by
  apply wrap64_congr
  have h1 : a * wrap64 (d * 10 ^ 9) ≡ a * (d * 10 ^ 9) [ZMOD 18446744073709551616] :=
    Int.ModEq.mul_left a (wrap64_modEq _)
  have h2 : wrap64 (a * wrap64 (d * 10 ^ 9)) ≡ a * (d * 10 ^ 9)
      [ZMOD 18446744073709551616] :=
    (wrap64_modEq _).trans h1
  exact Int.ModEq.add_left acc h2

/-! ## Lemmas on the coin-age loop -/

theorem coinAgeStep_of_skipped (t : AerialCC) (now acc : Int) (r : TransferInStruct)
    (hskip : now < r.Time + t.stakeMinAge) :
    coinAgeStep t now acc r = acc ∧ coinAgeTerm t now r = 0 := by
  simp [coinAgeStep, coinAgeTerm, hskip]

theorem coinAgeStep_of_counted (t : AerialCC) (now acc : Int) (r : TransferInStruct)
    (hcount : ¬ (now < r.Time + t.stakeMinAge)) :
    coinAgeStep t now acc r = wrap64 (acc + coinAgeTerm t now r) := by
  simp only [coinAgeStep, coinAgeTerm, if_neg hcount]
  exact wrap64_step _ _ _

/-- The loop computes the exact total of its terms, wrapped around. -/
theorem foldl_coinAgeStep_wrap (t : AerialCC) (now : Int) (um : List TransferInStruct)
    (acc : Int) (hacc : wrap64 acc = acc) :
    um.foldl (coinAgeStep t now) acc = wrap64 (acc + coinAgeExact t now um) := by
  induction um generalizing acc with
  | nil => simp [coinAgeExact, hacc]
  | cons r rs ih =>
    rw [List.foldl_cons]
    by_cases hskip : now < r.Time + t.stakeMinAge
    · obtain ⟨hstep, hterm⟩ := coinAgeStep_of_skipped t now acc r hskip
      rw [hstep, ih acc hacc]
      simp [coinAgeExact, hterm]
    · rw [coinAgeStep_of_counted t now acc r hskip, ih _ (wrap64_idem _)]
      apply wrap64_congr
      have h := (wrap64_modEq (acc + coinAgeTerm t now r)).add_right (coinAgeExact t now rs)
      have e : acc + coinAgeExact t now (r :: rs)
          = acc + coinAgeTerm t now r + coinAgeExact t now rs := by
        simp [coinAgeExact]
        ring
      rw [e]
      exact h

theorem foldl_coinAgeStep_zero (t : AerialCC) (now : Int) (um : List TransferInStruct) :
    um.foldl (coinAgeStep t now) 0 = wrap64 (coinAgeExact t now um) := by
  rw [foldl_coinAgeStep_wrap t now um 0 wrap64_zero, zero_add]

theorem clamp_eq_min (a b : Int) : (if a > b then b else a) = min a b := by
  by_cases hc : a > b
  · rw [if_pos hc, min_eq_right (le_of_lt hc)]
  · rw [if_neg hc, min_eq_left (not_lt.mp hc)]

/-- The exact total of the terms is `10^9` times the sum in the words of the
specification. -/
theorem coinAgeExact_eq_spec (t : AerialCC) (now : Int) (um : List TransferInStruct) :
    coinAgeExact t now um = 10 ^ 9 * specCoinAge um now t.stakeMinAge t.stakeMaxAge := by
  induction um with
  | nil => simp [coinAgeExact, specCoinAge]
  | cons r rs ih =>
    unfold coinAgeExact specCoinAge at ih ⊢
    by_cases hskip : now < r.Time + t.stakeMinAge
    · have hn : ¬ (r.Time + t.stakeMinAge ≤ now) := by omega
      simp only [List.map_cons, List.sum_cons, coinAgeTerm, if_pos hskip, zero_add, ih,
        List.filter_cons, hn, decide_False, Bool.false_eq_true, if_false]
    · have hn : r.Time + t.stakeMinAge ≤ now := by omega
      simp only [List.map_cons, List.sum_cons, coinAgeTerm, if_neg hskip, ih, clamp_eq_min,
        List.filter_cons, hn, decide_True, if_true]
      ring

/-- The value of the loop is `10^9` times the sum in the words of the
specification, wrapped around. -/
theorem foldl_coinAgeStep_eq (t : AerialCC) (now : Int) (um : List TransferInStruct) :
    um.foldl (coinAgeStep t now) 0
      = wrap64 (10 ^ 9 * specCoinAge um now t.stakeMinAge t.stakeMaxAge) := by
  rw [foldl_coinAgeStep_zero, coinAgeExact_eq_spec]

theorem getCoinAge_of_cons (t : AerialCC) (stub : Stub) (party : String) (now : Int)
    (r : TransferInStruct) (rs : List TransferInStruct)
    (hlog : stub.transferIns party = some (r :: rs)) :
    getCoinAge t stub party now = ((r :: rs).foldl (coinAgeStep t now) 0, true) := by
  simp [getCoinAge, Stub.GetTransferIns, hlog]

theorem coinAgeExact_insert (t : AerialCC) (now : Int) (pre post : List TransferInStruct)
    (r : TransferInStruct) :
    coinAgeExact t now (pre ++ r :: post)
      = coinAgeExact t now (pre ++ post) + coinAgeTerm t now r := by
  simp only [coinAgeExact, List.map_append, List.map_cons, List.sum_append, List.sum_cons]
  ring

theorem foldl_coinAgeStep_insert (t : AerialCC) (now : Int) (pre post : List TransferInStruct)
    (r : TransferInStruct) :
    (pre ++ r :: post).foldl (coinAgeStep t now) 0
      = wrap64 ((pre ++ post).foldl (coinAgeStep t now) 0 + coinAgeTerm t now r) := by
  rw [foldl_coinAgeStep_zero, foldl_coinAgeStep_zero, coinAgeExact_insert]
  apply wrap64_congr
  exact ((wrap64_modEq (coinAgeExact t now (pre ++ post))).add_right _).symm

theorem getCoinAge_of_insert (t : AerialCC) (stub : Stub) (party : String) (now : Int)
    (pre post : List TransferInStruct) (r : TransferInStruct)
    (hlog : stub.transferIns party = some (pre ++ r :: post)) :
    getCoinAge t stub party now = ((pre ++ r :: post).foldl (coinAgeStep t now) 0, true) := by
  simp [getCoinAge, Stub.GetTransferIns, hlog]

theorem foldl_coinAgeStep_all_skipped (t : AerialCC) (now : Int) (um : List TransferInStruct)
    (hskip : ∀ r ∈ um, now < r.Time + t.stakeMinAge) (acc : Int) :
    um.foldl (coinAgeStep t now) acc = acc := by
  induction um generalizing acc with
  | nil => rfl
  | cons r rs ih =>
    have hr : now < r.Time + t.stakeMinAge := hskip r (List.mem_cons_self r rs)
    rw [List.foldl_cons, ih (fun x hx => hskip x (List.mem_cons_of_mem r hx))]
    simp [coinAgeStep, hr]

/-! ## Lemmas on truncating division and on the mint -/

theorem tdiv_truncates (n d : Int) (hd : 0 < d) :
    |Int.tdiv n d * d| ≤ |n| ∧ |n - Int.tdiv n d * d| < d := by
  rcases le_or_lt 0 n with hn | hn
  · have hsplit := Int.tdiv_add_tmod n d
    have hq : 0 ≤ Int.tdiv n d := Int.tdiv_nonneg hn (le_of_lt hd)
    have hr0 : 0 ≤ Int.tmod n d := Int.tmod_nonneg d hn
    have hr1 : Int.tmod n d < d := Int.tmod_lt_of_pos n hd
    have hqd : 0 ≤ Int.tdiv n d * d := mul_nonneg hq (le_of_lt hd)
    have e : n - Int.tdiv n d * d = Int.tmod n d := by
      linarith [mul_comm d (Int.tdiv n d)]
    rw [e, abs_of_nonneg hqd, abs_of_nonneg hn, abs_of_nonneg hr0]
    exact ⟨by linarith, hr1⟩
  · have hm : 0 ≤ -n := by omega
    have hq : 0 ≤ Int.tdiv (-n) d := Int.tdiv_nonneg hm (le_of_lt hd)
    have hr0 : 0 ≤ Int.tmod (-n) d := Int.tmod_nonneg d hm
    have hr1 : Int.tmod (-n) d < d := Int.tmod_lt_of_pos (-n) hd
    have hsplit := Int.tdiv_add_tmod (-n) d
    have hneg : Int.tdiv (-n) d = - Int.tdiv n d := Int.neg_tdiv n d
    rw [hneg] at hq hsplit
    have hqd : Int.tdiv n d * d ≤ 0 := by nlinarith
    have e : n - Int.tdiv n d * d = - Int.tmod (-n) d := by
      linarith [mul_comm d (Int.tdiv n d), mul_neg d (Int.tdiv n d)]
    rw [e, abs_of_nonpos hqd, abs_of_neg hn, abs_neg, abs_of_nonneg hr0]
    exact ⟨by linarith [mul_neg d (Int.tdiv n d), mul_comm d (Int.tdiv n d)], hr1⟩

theorem MinePoS_of_minted (t : AerialCC) (stub : Stub) (party : String) (now src : Int)
    (um : List TransferInStruct)
    (hbal : stub.GetState party = some src) (hlog : stub.transferIns party = some um)
    (hne : um ≠ []) (hpos : 0 < (getProofOfStakeReward t stub party now).1)
    (hcap : t.totalSupply + (getProofOfStakeReward t stub party now).1 ≤ t.maxTotalSupply) :
    MinePoS t stub party now
      = mintedResult t stub party now src (getProofOfStakeReward t stub party now).1 := by
  have hlen : ¬ (um.length ≤ 0) := by
    cases um with
    | nil => exact absurd rfl hne
    | cons r rs => simp
  have hr : ¬ ((getProofOfStakeReward t stub party now).1 ≤ 0) := not_le.mpr hpos
  have hc : ¬ (t.totalSupply + (getProofOfStakeReward t stub party now).1 > t.maxTotalSupply) :=
    not_lt.mpr hcap
  simp only [MinePoS, hbal, Stub.GetTransferIns, hlog, hlen, if_false, hr, increaseTotalSupply,
    hc, mintedResult]

theorem MinePoS_of_cap_exceeded (t : AerialCC) (stub : Stub) (party : String) (now src : Int)
    (um : List TransferInStruct)
    (hbal : stub.GetState party = some src) (hlog : stub.transferIns party = some um)
    (hne : um ≠ []) (hpos : 0 < (getProofOfStakeReward t stub party now).1)
    (hcap : t.totalSupply + (getProofOfStakeReward t stub party now).1 > t.maxTotalSupply) :
    MinePoS t stub party now = ⟨false, some Failure.supplyCapExceeded, t, stub⟩ := by
  have hlen : ¬ (um.length ≤ 0) := by
    cases um with
    | nil => exact absurd rfl hne
    | cons r rs => simp
  have hr : ¬ ((getProofOfStakeReward t stub party now).1 ≤ 0) := not_le.mpr hpos
  simp only [MinePoS, hbal, Stub.GetTransferIns, hlog, hlen, if_false, hr, increaseTotalSupply,
    hcap, if_true]

/-- Every run of `MinePoS` either leaves the state as it was and returns
`false`, or is a mint. -/
theorem MinePoS_cases (t : AerialCC) (stub : Stub) (party : String) (now : Int) :
    ((MinePoS t stub party now).ok = false ∧ (MinePoS t stub party now).t = t
        ∧ (MinePoS t stub party now).stub = stub)
    ∨ (∃ (src : Int) (um : List TransferInStruct),
        stub.GetState party = some src ∧ stub.transferIns party = some um ∧ um ≠ []
        ∧ 0 < (getProofOfStakeReward t stub party now).1
        ∧ t.totalSupply + (getProofOfStakeReward t stub party now).1 ≤ t.maxTotalSupply
        ∧ MinePoS t stub party now
            = mintedResult t stub party now src (getProofOfStakeReward t stub party now).1) := by
  cases hbal : stub.GetState party with
  | none => left; simp [MinePoS, hbal]
  | some src =>
    cases hlog : stub.transferIns party with
    | none => left; simp [MinePoS, hbal, Stub.GetTransferIns, hlog]
    | some um =>
      by_cases hne : um = []
      · left; simp [MinePoS, hbal, Stub.GetTransferIns, hlog, hne]
      · have hlen : ¬ (um.length ≤ 0) := by
          cases um with
          | nil => exact absurd rfl hne
          | cons r rs => simp
        by_cases hpos : 0 < (getProofOfStakeReward t stub party now).1
        · by_cases hcap :
              t.totalSupply + (getProofOfStakeReward t stub party now).1 ≤ t.maxTotalSupply
          · right
            exact ⟨src, um, rfl, rfl, hne, hpos, hcap,
              MinePoS_of_minted t stub party now src um hbal hlog hne hpos hcap⟩
          · left
            rw [MinePoS_of_cap_exceeded t stub party now src um hbal hlog hne hpos
              (not_le.mp hcap)]
            exact ⟨rfl, rfl, rfl⟩
        · left
          have hr : (getProofOfStakeReward t stub party now).1 ≤ 0 := not_lt.mp hpos
          simp [MinePoS, hbal, Stub.GetTransferIns, hlog, hlen, hr]

theorem mintedResult_GetState (t : AerialCC) (stub : Stub) (party : String)
    (now src reward : Int) :
    (mintedResult t stub party now src reward).stub.GetState party = some (src + reward) := by
  simp [mintedResult, Stub.GetState, Stub.PutState, Stub.PutTransferIns]

theorem mintedResult_transferIns (t : AerialCC) (stub : Stub) (party : String)
    (now src reward : Int) :
    (mintedResult t stub party now src reward).stub.transferIns party
      = some [⟨party, src + reward + reward, now⟩] := by
  simp [mintedResult, Stub.PutState, Stub.PutTransferIns]

/-- A run of `MinePoS` that reaches the reward test with a reward that is not
positive returns `false` without an error and leaves the state as it was. -/
theorem MinePoS_of_no_reward (t : AerialCC) (stub : Stub) (party : String) (now src : Int)
    (um : List TransferInStruct)
    (hbal : stub.GetState party = some src) (hlog : stub.transferIns party = some um)
    (hr : (getProofOfStakeReward t stub party now).1 ≤ 0) :
    MinePoS t stub party now = ⟨false, none, t, stub⟩ := by
  by_cases hlen : um.length ≤ 0
  · simp only [MinePoS, hbal, Stub.GetTransferIns, hlog, hlen, if_true]
  · simp only [MinePoS, hbal, Stub.GetTransferIns, hlog, hlen, if_false, hr, if_true]

theorem reward_zero_of_coinAge_nonpos (t : AerialCC) (stub : Stub) (party : String) (now : Int)
    (hage : (getCoinAge t stub party now).1 ≤ 0) :
    getProofOfStakeReward t stub party now = (0, false) := by
  by_cases hgate : now ≤ t.stakeStartTime ∨ t.stakeStartTime ≤ 0
  · simp only [getProofOfStakeReward, hgate, if_true]
  · simp only [getProofOfStakeReward, hgate, if_false, hage, if_true]

/-! ## Lemmas on the growth of the coin-age -/

theorem clampedAge_nonneg (t : AerialCC) (now : Int) (r : TransferInStruct)
    (hmin : 0 ≤ t.stakeMinAge) (hmax : 0 ≤ t.stakeMaxAge)
    (helig : ¬ (now < r.Time + t.stakeMinAge)) :
    0 ≤ (if now - r.Time > t.stakeMaxAge then t.stakeMaxAge else now - r.Time) := by
  split_ifs <;> omega

theorem coinAgeTerm_nonneg (t : AerialCC) (now : Int) (r : TransferInStruct)
    (hmin : 0 ≤ t.stakeMinAge) (hmax : 0 ≤ t.stakeMaxAge) (hamt : 0 ≤ r.Amount) :
    0 ≤ coinAgeTerm t now r := by
  by_cases hskip : now < r.Time + t.stakeMinAge
  · simp [coinAgeTerm, hskip]
  · have hx := clampedAge_nonneg t now r hmin hmax hskip
    have hq := Int.tdiv_nonneg hx (by norm_num : (0 : Int) ≤ 86400)
    simp only [coinAgeTerm, if_neg hskip]
    exact mul_nonneg hamt (mul_nonneg hq (by norm_num))

theorem coinAgeTerm_mono (t : AerialCC) (now1 now2 : Int) (r : TransferInStruct)
    (hmin : 0 ≤ t.stakeMinAge) (hmax : 0 ≤ t.stakeMaxAge) (hamt : 0 ≤ r.Amount)
    (hle : now1 ≤ now2) :
    coinAgeTerm t now1 r ≤ coinAgeTerm t now2 r := by
  by_cases hskip1 : now1 < r.Time + t.stakeMinAge
  · have h0 : coinAgeTerm t now1 r = 0 := by simp [coinAgeTerm, hskip1]
    rw [h0]
    exact coinAgeTerm_nonneg t now2 r hmin hmax hamt
  · have hskip2 : ¬ (now2 < r.Time + t.stakeMinAge) := by omega
    have hx1 := clampedAge_nonneg t now1 r hmin hmax hskip1
    have hx2 := clampedAge_nonneg t now2 r hmin hmax hskip2
    have hx : (if now1 - r.Time > t.stakeMaxAge then t.stakeMaxAge else now1 - r.Time)
        ≤ (if now2 - r.Time > t.stakeMaxAge then t.stakeMaxAge else now2 - r.Time) := by
      split_ifs <;> omega
    have hq : Int.tdiv (if now1 - r.Time > t.stakeMaxAge then t.stakeMaxAge else now1 - r.Time)
          86400
        ≤ Int.tdiv (if now2 - r.Time > t.stakeMaxAge then t.stakeMaxAge else now2 - r.Time)
          86400 := by
      rw [Int.tdiv_eq_ediv hx1 (by norm_num), Int.tdiv_eq_ediv hx2 (by norm_num)]
      exact Int.ediv_le_ediv (by norm_num) hx
    simp only [coinAgeTerm, if_neg hskip1, if_neg hskip2]
    exact mul_le_mul_of_nonneg_left (mul_le_mul_of_nonneg_right hq (by norm_num)) hamt

theorem coinAgeExact_nonneg_mono (t : AerialCC) (now1 now2 : Int)
    (hmin : 0 ≤ t.stakeMinAge) (hmax : 0 ≤ t.stakeMaxAge) (hle : now1 ≤ now2)
    (um : List TransferInStruct) (hamt : ∀ r ∈ um, 0 ≤ r.Amount) :
    0 ≤ coinAgeExact t now1 um ∧ coinAgeExact t now1 um ≤ coinAgeExact t now2 um := by
  induction um with
  | nil => simp [coinAgeExact]
  | cons r rs ih =>
    have hr : 0 ≤ r.Amount := hamt r (List.mem_cons_self r rs)
    obtain ⟨ih0, ih1⟩ := ih (fun x hx => hamt x (List.mem_cons_of_mem r hx))
    have h0 := coinAgeTerm_nonneg t now1 r hmin hmax hr
    have h1 := coinAgeTerm_mono t now1 now2 r hmin hmax hr hle
    unfold coinAgeExact at ih0 ih1 ⊢
    simp only [List.map_cons, List.sum_cons]
    exact ⟨by linarith, by linarith⟩

/-- A quotient of a 64-bit dividend by a positive divisor is a 64-bit value. -/
theorem tdiv_in_range (n d : Int) (hd : 0 < d) (hlo : -2 ^ 63 ≤ n) (hhi : n < 2 ^ 63) :
    -2 ^ 63 ≤ Int.tdiv n d ∧ Int.tdiv n d < 2 ^ 63 := by
  rcases le_or_lt 0 n with hn | hn
  · have hq : 0 ≤ Int.tdiv n d := Int.tdiv_nonneg hn (le_of_lt hd)
    have hle : Int.tdiv n d ≤ n := by
      rw [Int.tdiv_eq_ediv hn (le_of_lt hd)]
      exact Int.ediv_le_self d hn
    constructor <;> omega
  · have hm : 0 ≤ -n := by omega
    have hq : 0 ≤ Int.tdiv (-n) d := Int.tdiv_nonneg hm (le_of_lt hd)
    have hle : Int.tdiv (-n) d ≤ -n := by
      rw [Int.tdiv_eq_ediv hm (le_of_lt hd)]
      exact Int.ediv_le_self d hm
    have hneg : Int.tdiv (-n) d = - Int.tdiv n d := Int.neg_tdiv n d
    rw [hneg] at hq hle
    constructor <;> omega

/-! ## Lemmas on the balance transfer -/

theorem MakePayment_of_present (stub : Stub) (partySrc partyDst : String) (X a b : Int)
    (hsrc : stub.GetState partySrc = some a) (hdst : stub.GetState partyDst = some b) :
    MakePayment stub partySrc partyDst X
      = ⟨none, (stub.PutState partySrc (a - X)).PutState partyDst (b + X)⟩ := by
  simp only [MakePayment, hsrc, hdst]

theorem MakePayment_distinct (stub : Stub) (partySrc partyDst : String) (X a b : Int)
    (hne : partySrc ≠ partyDst)
    (hsrc : stub.GetState partySrc = some a) (hdst : stub.GetState partyDst = some b) :
    (MakePayment stub partySrc partyDst X).err = none
    ∧ (MakePayment stub partySrc partyDst X).stub.GetState partySrc = some (a - X)
    ∧ (MakePayment stub partySrc partyDst X).stub.GetState partyDst = some (b + X) := by
  rw [MakePayment_of_present stub partySrc partyDst X a b hsrc hdst]
  refine ⟨rfl, ?_, ?_⟩
  · simp [Stub.GetState, Stub.PutState, hne]
  · simp [Stub.GetState, Stub.PutState]

/-- A transfer from an existing account to itself stores the balance raised by
the amount: the second write replaces the first. -/
theorem MakePayment_self (stub : Stub) (party : String) (X a : Int)
    (hbal : stub.GetState party = some a) :
    (MakePayment stub party party X).err = none
    ∧ (MakePayment stub party party X).stub.GetState party = some (a + X) := by
  rw [MakePayment_of_present stub party party X a a hbal hbal]
  refine ⟨rfl, ?_⟩
  simp [Stub.GetState, Stub.PutState]

/-! ## Claims on the coin-age -/

/-- C1 (evaluation at the failing input).  For the history holding the single
record of amount 1 at time 0, with `stakeMinAge = 0`, `stakeMaxAge = 86400` and
`now = 86400`, `getCoinAge` returns `1000000000`, while the sum of
`amount * (min(now - time, stakeMaxAge) / 86400)` over the eligible records
is `1`: the loop multiplies each whole-day count by `10 ^ 9`. -/
theorem C1_getCoinAge_scaled_at_failing_input :
    getCoinAge (mkConfig 1 0 86400 100) (mkStub "A" 1 [⟨"A", 1, 0⟩]) "A" 86400
        = (1000000000, true)
      ∧ specCoinAge [⟨"A", 1, 0⟩] 86400 0 86400 = 1 := by
  constructor
  · decide
  · decide

/-- C2.  A record with `now < record.time + stakeMinAge` adds nothing to the
coin-age returned by `getCoinAge`: the value is that of the history without
the record.  A record with `now >= record.time + stakeMinAge` is counted: the
value is that of the history without the record plus the term of the record,
as a 64-bit sum.  With `stakeMinAge = 86400` and the single record at time
`1000`, the record is left out at `now = 1000 + 86399` (coin-age `0`) and
counted at `now = 1000 + 86400`. -/
theorem C2_min_age_gate (t : AerialCC) (stub : Stub) (party : String) :
    (∀ (now : Int) (pre post : List TransferInStruct) (r : TransferInStruct),
        stub.transferIns party = some (pre ++ r :: post) →
        (now < r.Time + t.stakeMinAge →
          getCoinAge t stub party now = ((pre ++ post).foldl (coinAgeStep t now) 0, true))
        ∧ (r.Time + t.stakeMinAge ≤ now →
          getCoinAge t stub party now
            = (wrap64 ((pre ++ post).foldl (coinAgeStep t now) 0
                + r.Amount * (Int.tdiv (min (now - r.Time) t.stakeMaxAge) 86400 * 10 ^ 9)),
               true)))
    ∧ (∀ (addr : String) (amount : Int),
        t.stakeMinAge = 86400 →
        stub.transferIns party = some [⟨addr, amount, 1000⟩] →
        getCoinAge t stub party (1000 + 86399) = (0, true)
        ∧ getCoinAge t stub party (1000 + 86400)
            = (wrap64 (amount * (Int.tdiv (min 86400 t.stakeMaxAge) 86400 * 10 ^ 9)), true)) := by
  have key : ∀ (now : Int) (pre post : List TransferInStruct) (r : TransferInStruct),
      stub.transferIns party = some (pre ++ r :: post) →
      (now < r.Time + t.stakeMinAge →
        getCoinAge t stub party now = ((pre ++ post).foldl (coinAgeStep t now) 0, true))
      ∧ (r.Time + t.stakeMinAge ≤ now →
        getCoinAge t stub party now
          = (wrap64 ((pre ++ post).foldl (coinAgeStep t now) 0
              + r.Amount * (Int.tdiv (min (now - r.Time) t.stakeMaxAge) 86400 * 10 ^ 9)),
             true)) := by
    intro now pre post r hlog
    rw [getCoinAge_of_insert t stub party now pre post r hlog, foldl_coinAgeStep_insert]
    constructor
    · intro h
      rw [(coinAgeStep_of_skipped t now 0 r h).2, add_zero, foldl_coinAgeStep_zero, wrap64_idem]
    · intro h
      have hn : ¬ (now < r.Time + t.stakeMinAge) := by omega
      simp only [coinAgeTerm, if_neg hn, clamp_eq_min]
  refine ⟨key, ?_⟩
  intro addr amount hmin hlog
  have hlog1 : stub.transferIns party
      = some ([] ++ (⟨addr, amount, 1000⟩ : TransferInStruct) :: []) := by
    simpa using hlog
  constructor
  · have h := (key (1000 + 86399) [] [] ⟨addr, amount, 1000⟩ hlog1).1
    simpa [hmin] using h
  · have h := (key (1000 + 86400) [] [] ⟨addr, amount, 1000⟩ hlog1).2
    simpa [hmin] using h

/-- C2, witness: the store holding the single record of amount 5 at time 1000,
with `stakeMinAge = 86400` and `stakeMaxAge = 2000000`; both parts of the
statement are applied to it. -/
theorem C2_min_age_gate_witness :
    (mkConfig 1 86400 2000000 100).stakeMinAge = 86400
    ∧ (mkStub "A" 5 [⟨"A", 5, 1000⟩]).transferIns "A" = some [⟨"A", 5, 1000⟩]
    ∧ (getCoinAge (mkConfig 1 86400 2000000 100) (mkStub "A" 5 [⟨"A", 5, 1000⟩]) "A"
          (1000 + 86399) = (0, true)
      ∧ getCoinAge (mkConfig 1 86400 2000000 100) (mkStub "A" 5 [⟨"A", 5, 1000⟩]) "A"
          (1000 + 86400)
          = (wrap64 (5 * (Int.tdiv (min 86400 (mkConfig 1 86400 2000000 100).stakeMaxAge) 86400
              * 10 ^ 9)), true))
    ∧ getCoinAge (mkConfig 1 86400 2000000 100) (mkStub "A" 5 [⟨"A", 5, 1000⟩]) "A" 5000
        = (([] ++ []).foldl (coinAgeStep (mkConfig 1 86400 2000000 100) 5000) 0, true)
    ∧ getCoinAge (mkConfig 1 86400 2000000 100) (mkStub "A" 5 [⟨"A", 5, 1000⟩]) "A" 200000
        = (wrap64 (([] ++ []).foldl (coinAgeStep (mkConfig 1 86400 2000000 100) 200000) 0
            + 5 * (Int.tdiv (min (200000 - 1000) (mkConfig 1 86400 2000000 100).stakeMaxAge)
                86400 * 10 ^ 9)), true)
    ∧ getCoinAge (mkConfig 1 86400 2000000 100) (mkStub "A" 5 [⟨"A", 5, 1000⟩]) "A"
          (1000 + 86400) = (5000000000, true) :=
  ⟨rfl, by decide,
    (C2_min_age_gate (mkConfig 1 86400 2000000 100) (mkStub "A" 5 [⟨"A", 5, 1000⟩]) "A").2
      "A" 5 rfl (by decide),
    ((C2_min_age_gate (mkConfig 1 86400 2000000 100) (mkStub "A" 5 [⟨"A", 5, 1000⟩]) "A").1
      5000 [] [] ⟨"A", 5, 1000⟩ (by decide)).1 (by decide),
    ((C2_min_age_gate (mkConfig 1 86400 2000000 100) (mkStub "A" 5 [⟨"A", 5, 1000⟩]) "A").1
      200000 [] [] ⟨"A", 5, 1000⟩ (by decide)).2 (by decide),
    by decide⟩

/-- C3 (evaluation at the failing input).  With `stakeMaxAge = 2000000`,
`stakeMinAge = 0` and the single record of amount 100 at time 0, the coin-age
at age `stakeMaxAge + 1000` is the coin-age at age exactly `stakeMaxAge` (the
age is clamped), but its value is `2300000000000`, not
`100 * (2000000 / 86400) = 2300`. -/
theorem C3_clamped_value_at_failing_input :
    getCoinAge (mkConfig 1 0 2000000 100) (mkStub "A" 100 [⟨"A", 100, 0⟩]) "A" (2000000 + 1000)
        = (2300000000000, true)
      ∧ getCoinAge (mkConfig 1 0 2000000 100) (mkStub "A" 100 [⟨"A", 100, 0⟩]) "A" 2000000
        = (2300000000000, true)
      ∧ (100 : Int) * Int.tdiv 2000000 86400 = 2300 := by
  refine ⟨?_, ?_, ?_⟩
  · decide
  · decide
  · decide

/-- C4.  On an empty stake history (the key absent, or an empty record
sequence stored) `getCoinAge` returns `(0, false)`, for every time and every
configuration. -/
theorem C4_getCoinAge_empty (t : AerialCC) (stub : Stub) (party : String) (now : Int)
    (hlog : stub.transferIns party = none ∨ stub.transferIns party = some []) :
    getCoinAge t stub party now = (0, false) := by
  rcases hlog with h | h
  · simp [getCoinAge, Stub.GetTransferIns, h]
  · simp [getCoinAge, Stub.GetTransferIns, h]

/-- C4, witness: an account whose stored history is the empty sequence. -/
theorem C4_getCoinAge_empty_witness :
    ((mkStub "A" 1000 []).transferIns "A" = none ∨ (mkStub "A" 1000 []).transferIns "A" = some [])
    ∧ getCoinAge (mkConfig 1 0 86400 100) (mkStub "A" 1000 []) "A" 5000 = (0, false) :=
  ⟨Or.inr (by decide),
    C4_getCoinAge_empty (mkConfig 1 0 86400 100) (mkStub "A" 1000 []) "A" 5000
      (Or.inr (by decide))⟩

/-- C5 (counterexample).  It is not the case that `getCoinAge` returns
`(0, false)` on every non-empty history whose records are all skipped: for the
single record at time 1000 with `stakeMinAge = 86400` and `now = 1000` it
returns `(0, true)`. -/
theorem C5_all_skipped_counterexample :
    ¬ (∀ (t : AerialCC) (stub : Stub) (party : String) (now : Int)
        (um : List TransferInStruct),
        um ≠ [] → stub.transferIns party = some um →
        (∀ r ∈ um, now < r.Time + t.stakeMinAge) →
        getCoinAge t stub party now = (0, false)) := by
  intro h
  have h1 := h (mkConfig 1 86400 2000000 100) (mkStub "A" 100 [⟨"A", 100, 1000⟩]) "A" 1000
    [⟨"A", 100, 1000⟩] (by decide) (by decide) (by decide)
  revert h1
  decide

/-- C5 (amended).  On every non-empty history whose records are all skipped
`getCoinAge` returns the coin-age `0` with the flag `true`. -/
theorem C5_all_skipped_zero_true (t : AerialCC) (stub : Stub) (party : String) (now : Int)
    (um : List TransferInStruct) (hne : um ≠ [])
    (hlog : stub.transferIns party = some um)
    (hskip : ∀ r ∈ um, now < r.Time + t.stakeMinAge) :
    getCoinAge t stub party now = (0, true) := by
  cases um with
  | nil => exact absurd rfl hne
  | cons r rs =>
    rw [getCoinAge_of_cons t stub party now r rs hlog,
      foldl_coinAgeStep_all_skipped t now (r :: rs) hskip 0]

/-- C5, witness: the single record at time 1000, `stakeMinAge = 86400`,
`now = 1000`. -/
theorem C5_all_skipped_zero_true_witness :
    getCoinAge (mkConfig 1 86400 2000000 100) (mkStub "A" 100 [⟨"A", 100, 1000⟩]) "A" 1000
      = (0, true) :=
  C5_all_skipped_zero_true (mkConfig 1 86400 2000000 100) (mkStub "A" 100 [⟨"A", 100, 1000⟩])
    "A" 1000 [⟨"A", 100, 1000⟩] (by decide) (by decide) (by decide)

/-! ## Claims on the reward -/

/-- C6.  Whenever `stakeStartTime <= 0` or `now <= stakeStartTime`,
`getProofOfStakeReward` returns `(0, false)`, whatever the store (and so the
coin-age of the account) is. -/
theorem C6_reward_zero_before_start (t : AerialCC) (stub : Stub) (party : String) (now : Int)
    (h : t.stakeStartTime ≤ 0 ∨ now ≤ t.stakeStartTime) :
    getProofOfStakeReward t stub party now = (0, false) := by
  have hc : now ≤ t.stakeStartTime ∨ t.stakeStartTime ≤ 0 := h.symm
  simp only [getProofOfStakeReward, hc, if_true]

/-- C6, witness: an account with a large positive coin-age at a time equal to
`stakeStartTime`. -/
theorem C6_reward_zero_before_start_witness :
    ((mkConfig 90000 0 86400 100).stakeStartTime ≤ 0
        ∨ (90000 : Int) ≤ (mkConfig 90000 0 86400 100).stakeStartTime)
    ∧ 0 < (getCoinAge (mkConfig 90000 0 86400 100) (mkStub "A" 7 [⟨"A", 7, 0⟩]) "A" 90000).1
    ∧ getProofOfStakeReward (mkConfig 90000 0 86400 100) (mkStub "A" 7 [⟨"A", 7, 0⟩]) "A" 90000
        = (0, false) :=
  ⟨Or.inr (by decide), by decide,
    C6_reward_zero_before_start (mkConfig 90000 0 86400 100) (mkStub "A" 7 [⟨"A", 7, 0⟩]) "A"
      90000 (Or.inr (by decide))⟩

/-- C7 (evaluation at the failing inputs).  With `stakeStartTime = 1` and
`maxMineProofOfStake = 100000`: one year of seconds after the start
(`now = 1 + 31536000`) the selected interest is `770000`, the first tier, where
`elapsedYears = 1` asks for `435000`; two years after the start it is still
`770000`, where `elapsedYears = 2` asks for `100000`.  The reward returned one
year after the start, `11914627107826645`, is the one of the first tier: the
64-bit product of the coin-age `365000000000000` and `770000`, divided by
`365`. -/
theorem C7_interest_tier_at_failing_input :
    interest (mkConfig 1 0 31536000 100000) (1 + 31536000) = 770000
      ∧ specInterest (1 + 31536000) 1 100000 = 435000
      ∧ interest (mkConfig 1 0 31536000 100000) (1 + 2 * 31536000) = 770000
      ∧ specInterest (1 + 2 * 31536000) 1 100000 = 100000
      ∧ getProofOfStakeReward (mkConfig 1 0 31536000 100000) (mkStub "A" 1000 [⟨"A", 1000, 1⟩])
          "A" (1 + 31536000)
        = (11914627107826645, true)
      ∧ Int.tdiv (wrap64 (365000000000000 * 770000)) 365 = 11914627107826645 := by
  refine ⟨?_, ?_, ?_, ?_, ?_, ?_⟩
  · decide
  · decide
  · decide
  · decide
  · decide
  · decide

/-- C8 (counterexample).  It is not the case that every eligible invocation
returns `coinAge * interest / (365 * 10^decimals)`: for the account `A` with the
single record of amount 1000 staked for 365 days, `maxMineProofOfStake =
100000` and `decimals = 0`, the coin-age is `365000000000000`, the interest
`770000`, their product is above `2^63` and the reward returned is
`11914627107826645`, not `770000000000000000`. -/
theorem C8_reward_overflow_counterexample :
    ¬ (∀ (t : AerialCC) (stub : Stub) (party : String) (now : Int),
        0 < t.stakeStartTime → t.stakeStartTime < now →
        0 < (getCoinAge t stub party now).1 →
        getProofOfStakeReward t stub party now
          = (Int.tdiv ((getCoinAge t stub party now).1 * interest t now)
              (365 * 10 ^ t.decimals), true)) := by
  intro h
  have h1 := h (mkConfig 1 0 31536000 100000) (mkStub "A" 1000 [⟨"A", 1000, 2⟩]) "A"
    (2 + 31536000) (by decide) (by decide) (by decide)
  revert h1
  decide

/-- C8 (amended).  For `now > stakeStartTime > 0` and a positive coin-age, when
the product `coinAge * interest` and the divisor `365 * 10^decimals` lie in the
64-bit signed range, `getProofOfStakeReward` returns
`coinAge * interest / (365 * 10^decimals)` with the flag `true`, where `coinAge`
is the value of `getCoinAge` and `interest` the selected tier value.  The one
division truncates toward zero: the quotient times the divisor is no further
from zero than the dividend, and differs from it by less than the divisor. -/
theorem C8_reward_formula_in_range (t : AerialCC) (stub : Stub) (party : String) (now : Int)
    (hstart : 0 < t.stakeStartTime) (hnow : t.stakeStartTime < now)
    (hage : 0 < (getCoinAge t stub party now).1)
    (hlo : -2 ^ 63 ≤ (getCoinAge t stub party now).1 * interest t now)
    (hhi : (getCoinAge t stub party now).1 * interest t now < 2 ^ 63)
    (hdiv : (365 : Int) * 10 ^ t.decimals < 2 ^ 63) :
    getProofOfStakeReward t stub party now
        = (Int.tdiv ((getCoinAge t stub party now).1 * interest t now) (365 * 10 ^ t.decimals),
           true)
      ∧ |(getProofOfStakeReward t stub party now).1 * (365 * 10 ^ t.decimals)|
          ≤ |(getCoinAge t stub party now).1 * interest t now|
      ∧ |(getCoinAge t stub party now).1 * interest t now
            - (getProofOfStakeReward t stub party now).1 * (365 * 10 ^ t.decimals)|
          < 365 * 10 ^ t.decimals := by
  have hgate : ¬ (now ≤ t.stakeStartTime ∨ t.stakeStartTime ≤ 0) := by
    intro h
    rcases h with h | h
    · exact absurd hnow (not_lt.mpr h)
    · exact absurd hstart (not_lt.mpr h)
  have hpos : ¬ ((getCoinAge t stub party now).1 ≤ 0) := not_le.mpr hage
  have hd : (0 : Int) < 365 * 10 ^ t.decimals := by positivity
  have hp0 : (0 : Int) < 10 ^ t.decimals := by positivity
  have hpow : wrap64 (10 ^ t.decimals) = 10 ^ t.decimals :=
    wrap64_of_range _ (by linarith) (by linarith)
  have hdw : wrap64 (365 * 10 ^ t.decimals) = 365 * 10 ^ t.decimals :=
    wrap64_of_range _ (by linarith) hdiv
  have hnw : wrap64 ((getCoinAge t stub party now).1 * interest t now)
      = (getCoinAge t stub party now).1 * interest t now := wrap64_of_range _ hlo hhi
  have hq := tdiv_in_range _ _ hd hlo hhi
  have hqw : wrap64 (Int.tdiv ((getCoinAge t stub party now).1 * interest t now)
        (365 * 10 ^ t.decimals))
      = Int.tdiv ((getCoinAge t stub party now).1 * interest t now) (365 * 10 ^ t.decimals) :=
    wrap64_of_range _ hq.1 hq.2
  have heq : getProofOfStakeReward t stub party now
      = (Int.tdiv ((getCoinAge t stub party now).1 * interest t now) (365 * 10 ^ t.decimals),
         true) := by
    simp only [getProofOfStakeReward, hgate, if_false, hpos, hpow, hdw, hnw, hqw]
  refine ⟨heq, ?_, ?_⟩
  · rw [heq]
    exact (tdiv_truncates _ _ hd).1
  · rw [heq]
    exact (tdiv_truncates _ _ hd).2

/-- C8, witness: amount 3 staked for one day, `maxMineProofOfStake = -7` (a
negative dividend), `decimals = 0`. -/
theorem C8_reward_formula_in_range_witness :
    getProofOfStakeReward (mkConfig 1 0 86400 (-7)) (mkStub "A" 3 [⟨"A", 3, 2⟩]) "A" 86402
      = (Int.tdiv
          ((getCoinAge (mkConfig 1 0 86400 (-7)) (mkStub "A" 3 [⟨"A", 3, 2⟩]) "A" 86402).1
            * interest (mkConfig 1 0 86400 (-7)) 86402)
          (365 * 10 ^ (mkConfig 1 0 86400 (-7)).decimals), true) :=
  (C8_reward_formula_in_range (mkConfig 1 0 86400 (-7)) (mkStub "A" 3 [⟨"A", 3, 2⟩]) "A" 86402
    (by decide) (by decide) (by decide) (by decide) (by decide) (by decide)).1

/-! ## Claims on the mint -/

/-- C9.  `MinePoS` keeps `totalSupply <= maxTotalSupply` and never changes
`maxTotalSupply`.  Whenever `totalSupply + reward > maxTotalSupply` the call
returns `false` and leaves the contract state (with `totalSupply`) and the
ledger store (balance and history log) as they were; when the account exists,
its history is not empty and the reward is positive, the error is
`SupplyCapExceeded`. -/
theorem C9_supply_cap (t : AerialCC) (stub : Stub) (party : String) (now : Int) :
    (t.totalSupply ≤ t.maxTotalSupply →
        (MinePoS t stub party now).t.totalSupply ≤ (MinePoS t stub party now).t.maxTotalSupply)
    ∧ (MinePoS t stub party now).t.maxTotalSupply = t.maxTotalSupply
    ∧ (t.totalSupply + (getProofOfStakeReward t stub party now).1 > t.maxTotalSupply →
        (MinePoS t stub party now).ok = false ∧ (MinePoS t stub party now).t = t
        ∧ (MinePoS t stub party now).stub = stub)
    ∧ (∀ (src : Int) (um : List TransferInStruct),
        stub.GetState party = some src → stub.transferIns party = some um → um ≠ [] →
        0 < (getProofOfStakeReward t stub party now).1 →
        t.totalSupply + (getProofOfStakeReward t stub party now).1 > t.maxTotalSupply →
        (MinePoS t stub party now).err = some Failure.supplyCapExceeded) := by
  refine ⟨?_, ?_, ?_, ?_⟩
  · intro hinv
    rcases MinePoS_cases t stub party now with ⟨_, ht, _⟩ | ⟨src, um, _, _, _, _, hcap, hres⟩
    · rw [ht]
      exact hinv
    · rw [hres]
      exact hcap
  · rcases MinePoS_cases t stub party now with ⟨_, ht, _⟩ | ⟨src, um, _, _, _, _, _, hres⟩
    · rw [ht]
    · rw [hres]
      rfl
  · intro hover
    rcases MinePoS_cases t stub party now with h | ⟨src, um, _, _, _, _, hcap, _⟩
    · exact h
    · exact absurd hover (not_lt.mpr hcap)
  · intro src um hbal hlog hne hpos hover
    rw [MinePoS_of_cap_exceeded t stub party now src um hbal hlog hne hpos hover]

/-- C9, witness: total supply 1000 under a cap of 1001, and an account whose
reward is far above 1. -/
theorem C9_supply_cap_witness :
    ({ mkConfig 1 0 86400 100 with maxTotalSupply := 1001 } : AerialCC).totalSupply
        ≤ ({ mkConfig 1 0 86400 100 with maxTotalSupply := 1001 } : AerialCC).maxTotalSupply
    ∧ (MinePoS { mkConfig 1 0 86400 100 with maxTotalSupply := 1001 }
          (mkStub "A" 50 [⟨"A", 50, 2⟩]) "A" 86402).t.totalSupply ≤ 1001
    ∧ (MinePoS { mkConfig 1 0 86400 100 with maxTotalSupply := 1001 }
          (mkStub "A" 50 [⟨"A", 50, 2⟩]) "A" 86402).stub = mkStub "A" 50 [⟨"A", 50, 2⟩]
    ∧ (MinePoS { mkConfig 1 0 86400 100 with maxTotalSupply := 1001 }
          (mkStub "A" 50 [⟨"A", 50, 2⟩]) "A" 86402).err = some Failure.supplyCapExceeded :=
  ⟨by decide,
    (C9_supply_cap { mkConfig 1 0 86400 100 with maxTotalSupply := 1001 }
      (mkStub "A" 50 [⟨"A", 50, 2⟩]) "A" 86402).1 (by decide),
    ((C9_supply_cap { mkConfig 1 0 86400 100 with maxTotalSupply := 1001 }
      (mkStub "A" 50 [⟨"A", 50, 2⟩]) "A" 86402).2.2.1 (by decide)).2.2,
    (C9_supply_cap { mkConfig 1 0 86400 100 with maxTotalSupply := 1001 }
      (mkStub "A" 50 [⟨"A", 50, 2⟩]) "A" 86402).2.2.2 50 [⟨"A", 50, 2⟩]
      (by decide) (by decide) (by decide) (by decide) (by decide)⟩

/-- C10.  When `MinePoS` succeeds, the account existed with some balance
`src`, the computed reward `r` is positive, the balance stored afterwards is
`src + r`, and `totalSupply` afterwards is `totalSupply + r` for the same
`r`. -/
theorem C10_mint_credits_reward (t : AerialCC) (stub : Stub) (party : String) (now : Int)
    (hok : (MinePoS t stub party now).ok = true) :
    ∃ src : Int, stub.GetState party = some src
      ∧ 0 < (getProofOfStakeReward t stub party now).1
      ∧ (MinePoS t stub party now).stub.GetState party
          = some (src + (getProofOfStakeReward t stub party now).1)
      ∧ (MinePoS t stub party now).t.totalSupply
          = t.totalSupply + (getProofOfStakeReward t stub party now).1 := by
  rcases MinePoS_cases t stub party now with ⟨hfalse, _, _⟩ | ⟨src, um, hbal, _, _, hpos, _, hres⟩
  · rw [hfalse] at hok
    exact absurd hok (by decide)
  · refine ⟨src, hbal, hpos, ?_, ?_⟩
    · rw [hres]
      simp [mintedResult, Stub.GetState, Stub.PutState, Stub.PutTransferIns]
    · rw [hres]
      rfl

/-- C10, witness: balance 50, one record of amount 50 staked for one day. -/
theorem C10_mint_credits_reward_witness :
    (MinePoS (mkConfig 1 0 86400 100) (mkStub "A" 50 [⟨"A", 50, 2⟩]) "A" 86402).ok = true
    ∧ ∃ src : Int, (mkStub "A" 50 [⟨"A", 50, 2⟩]).GetState "A" = some src
      ∧ 0 < (getProofOfStakeReward (mkConfig 1 0 86400 100) (mkStub "A" 50 [⟨"A", 50, 2⟩])
              "A" 86402).1
      ∧ (MinePoS (mkConfig 1 0 86400 100) (mkStub "A" 50 [⟨"A", 50, 2⟩]) "A" 86402).stub.GetState
            "A"
          = some (src + (getProofOfStakeReward (mkConfig 1 0 86400 100)
              (mkStub "A" 50 [⟨"A", 50, 2⟩]) "A" 86402).1)
      ∧ (MinePoS (mkConfig 1 0 86400 100) (mkStub "A" 50 [⟨"A", 50, 2⟩]) "A" 86402).t.totalSupply
          = (mkConfig 1 0 86400 100).totalSupply
            + (getProofOfStakeReward (mkConfig 1 0 86400 100) (mkStub "A" 50 [⟨"A", 50, 2⟩])
                "A" 86402).1 :=
  ⟨by decide,
    C10_mint_credits_reward (mkConfig 1 0 86400 100) (mkStub "A" 50 [⟨"A", 50, 2⟩]) "A" 86402
      (by decide)⟩

/-- C11 (evaluation at the failing input).  For the account `A` with balance 50
and the single record of amount 50 staked for one day, `MinePoS` succeeds with
reward `105479452054`; the balance stored afterwards is
`50 + 105479452054 = 105479452104`, and the history log stored afterwards is
the single record of `A` at time `now`, but its amount is `210958904158`,
the old balance plus twice the reward, not the new balance. -/
theorem C11_history_amount_at_failing_input :
    (MinePoS (mkConfig 1 0 86400 100) (mkStub "A" 50 [⟨"A", 50, 2⟩]) "A" 86402).ok = true
    ∧ (getProofOfStakeReward (mkConfig 1 0 86400 100) (mkStub "A" 50 [⟨"A", 50, 2⟩]) "A"
          86402).1 = 105479452054
    ∧ (MinePoS (mkConfig 1 0 86400 100) (mkStub "A" 50 [⟨"A", 50, 2⟩]) "A" 86402).stub.GetState
          "A" = some 105479452104
    ∧ (MinePoS (mkConfig 1 0 86400 100) (mkStub "A" 50 [⟨"A", 50, 2⟩]) "A" 86402).stub.transferIns
          "A" = some [⟨"A", 210958904158, 86402⟩] := by
  refine ⟨?_, ?_, ?_, ?_⟩
  · decide
  · decide
  · decide
  · decide

/-- C12 (counterexample).  It is not the case that `MinePoS` returns `false`
without an error for every existing account whose history key is absent or
holds an empty sequence: for the account `A` with balance 1000 and no history
key the call returns the decoding error. -/
theorem C12_absent_history_counterexample :
    ¬ (∀ (t : AerialCC) (stub : Stub) (party : String) (now src : Int),
        stub.GetState party = some src →
        (stub.transferIns party = none ∨ stub.transferIns party = some []) →
        (MinePoS t stub party now).ok = false ∧ (MinePoS t stub party now).err = none
        ∧ (MinePoS t stub party now).t = t ∧ (MinePoS t stub party now).stub = stub) := by
  intro h
  have h1 := (h (mkConfig 1 0 86400 100) (mkStubNoLog "A" 1000) "A" 5000 1000 (by decide)
    (Or.inl (by decide))).2.1
  revert h1
  decide

/-- C12 (amended).  For an existing account whose stored history is the empty
record sequence, `MinePoS` returns `false` without an error and leaves the
contract state and the ledger store as they were.  For an existing account
whose history key is absent, `MinePoS` returns `false` with the decoding error
and also leaves the contract state and the ledger store as they were. -/
theorem C12_empty_or_absent_history (t : AerialCC) (stub : Stub) (party : String)
    (now src : Int) (hbal : stub.GetState party = some src) :
    (stub.transferIns party = some [] → MinePoS t stub party now = ⟨false, none, t, stub⟩)
    ∧ (stub.transferIns party = none →
        MinePoS t stub party now = ⟨false, some Failure.unmarshal, t, stub⟩) := by
  constructor
  · intro hlog
    simp [MinePoS, hbal, Stub.GetTransferIns, hlog]
  · intro hlog
    simp [MinePoS, hbal, Stub.GetTransferIns, hlog]

/-- C12, witness: the account `A` with balance 1000, once with the empty
sequence stored and once with no history key. -/
theorem C12_empty_or_absent_history_witness :
    (MinePoS (mkConfig 1 0 86400 100) (mkStub "A" 1000 []) "A" 5000
        = ⟨false, none, mkConfig 1 0 86400 100, mkStub "A" 1000 []⟩)
    ∧ (MinePoS (mkConfig 1 0 86400 100) (mkStubNoLog "A" 1000) "A" 5000
        = ⟨false, some Failure.unmarshal, mkConfig 1 0 86400 100, mkStubNoLog "A" 1000⟩) :=
  ⟨(C12_empty_or_absent_history (mkConfig 1 0 86400 100) (mkStub "A" 1000 []) "A" 5000 1000
      (by decide)).1 (by decide),
    (C12_empty_or_absent_history (mkConfig 1 0 86400 100) (mkStubNoLog "A" 1000) "A" 5000 1000
      (by decide)).2 (by decide)⟩

/-- C13.  Every `MinePoS` call that returns `false` leaves the contract state
(with `totalSupply`) and the ledger store (balance and history log) as they
were.  A call whose coin-age is not positive, and a call whose computed reward
is not positive, returns `false` and changes nothing; when the account and its
history exist, it does so without an error. -/
theorem C13_not_eligible_no_mutation (t : AerialCC) (stub : Stub) (party : String) (now : Int) :
    ((MinePoS t stub party now).ok = false →
        (MinePoS t stub party now).t = t ∧ (MinePoS t stub party now).stub = stub)
    ∧ ((getCoinAge t stub party now).1 ≤ 0 →
        (MinePoS t stub party now).ok = false ∧ (MinePoS t stub party now).t = t
        ∧ (MinePoS t stub party now).stub = stub)
    ∧ ((getProofOfStakeReward t stub party now).1 ≤ 0 →
        (MinePoS t stub party now).ok = false ∧ (MinePoS t stub party now).t = t
        ∧ (MinePoS t stub party now).stub = stub)
    ∧ (∀ (src : Int) (um : List TransferInStruct),
        stub.GetState party = some src → stub.transferIns party = some um →
        (getProofOfStakeReward t stub party now).1 ≤ 0 →
        MinePoS t stub party now = ⟨false, none, t, stub⟩) := by
  have hreward : (getProofOfStakeReward t stub party now).1 ≤ 0 →
      (MinePoS t stub party now).ok = false ∧ (MinePoS t stub party now).t = t
      ∧ (MinePoS t stub party now).stub = stub := by
    intro hr
    rcases MinePoS_cases t stub party now with h | ⟨src, um, _, _, _, hpos, _, _⟩
    · exact h
    · exact absurd hpos (not_lt.mpr hr)
  refine ⟨?_, ?_, hreward, ?_⟩
  · intro hfalse
    rcases MinePoS_cases t stub party now with h | ⟨src, um, _, _, _, _, _, hres⟩
    · exact h.2
    · rw [hres] at hfalse
      simp [mintedResult] at hfalse
  · intro hage
    apply hreward
    rw [reward_zero_of_coinAge_nonpos t stub party now hage]
  · intro src um hbal hlog hr
    exact MinePoS_of_no_reward t stub party now src um hbal hlog hr

/-- C13, witness: the account `A` whose single record is younger than
`stakeMinAge`, so that coin-age and reward are 0; each part of the statement is
applied to it. -/
theorem C13_not_eligible_no_mutation_witness :
    (getCoinAge (mkConfig 1 86400 2000000 100) (mkStub "A" 100 [⟨"A", 100, 1000⟩]) "A" 5000).1 ≤ 0
    ∧ ((MinePoS (mkConfig 1 86400 2000000 100) (mkStub "A" 100 [⟨"A", 100, 1000⟩]) "A" 5000).ok
          = false
      ∧ (MinePoS (mkConfig 1 86400 2000000 100) (mkStub "A" 100 [⟨"A", 100, 1000⟩]) "A" 5000).t
          = mkConfig 1 86400 2000000 100
      ∧ (MinePoS (mkConfig 1 86400 2000000 100) (mkStub "A" 100 [⟨"A", 100, 1000⟩]) "A" 5000).stub
          = mkStub "A" 100 [⟨"A", 100, 1000⟩])
    ∧ MinePoS (mkConfig 1 86400 2000000 100) (mkStub "A" 100 [⟨"A", 100, 1000⟩]) "A" 5000
        = ⟨false, none, mkConfig 1 86400 2000000 100, mkStub "A" 100 [⟨"A", 100, 1000⟩]⟩
    ∧ ((MinePoS (mkConfig 1 86400 2000000 100) (mkStub "A" 100 [⟨"A", 100, 1000⟩]) "A" 5000).t
          = mkConfig 1 86400 2000000 100
      ∧ (MinePoS (mkConfig 1 86400 2000000 100) (mkStub "A" 100 [⟨"A", 100, 1000⟩]) "A" 5000).stub
          = mkStub "A" 100 [⟨"A", 100, 1000⟩])
    ∧ (MinePoS (mkConfig 1 86400 2000000 100) (mkStub "A" 100 [⟨"A", 100, 1000⟩]) "A" 5000).ok
        = false :=
  ⟨by decide,
    (C13_not_eligible_no_mutation (mkConfig 1 86400 2000000 100)
      (mkStub "A" 100 [⟨"A", 100, 1000⟩]) "A" 5000).2.1 (by decide),
    (C13_not_eligible_no_mutation (mkConfig 1 86400 2000000 100)
      (mkStub "A" 100 [⟨"A", 100, 1000⟩]) "A" 5000).2.2.2 100 [⟨"A", 100, 1000⟩]
      (by decide) (by decide) (by decide),
    (C13_not_eligible_no_mutation (mkConfig 1 86400 2000000 100)
      (mkStub "A" 100 [⟨"A", 100, 1000⟩]) "A" 5000).1 (by decide),
    ((C13_not_eligible_no_mutation (mkConfig 1 86400 2000000 100)
      (mkStub "A" 100 [⟨"A", 100, 1000⟩]) "A" 5000).2.2.1 (by decide)).1⟩

/-! ## Claims on the balance transfer -/

/-- C14.  When two distinct accounts both exist and `amount <= balance(source)`,
`MakePayment` reports no error, the stored source balance is the old one minus
the amount, the stored destination balance is the old one plus the amount, and
the sum of the two stored balances is the sum of the old ones. -/
theorem C14_transfer_moves_amount (stub : Stub) (partySrc partyDst : String) (X a b : Int)
    (hne : partySrc ≠ partyDst)
    (hsrc : stub.GetState partySrc = some a) (hdst : stub.GetState partyDst = some b)
    (_hle : X ≤ a) :
    (MakePayment stub partySrc partyDst X).err = none
    ∧ ∃ a1 b1 : Int,
        (MakePayment stub partySrc partyDst X).stub.GetState partySrc = some a1
        ∧ (MakePayment stub partySrc partyDst X).stub.GetState partyDst = some b1
        ∧ a1 = a - X ∧ b1 = b + X ∧ a1 + b1 = a + b := by
  obtain ⟨herr, h1, h2⟩ := MakePayment_distinct stub partySrc partyDst X a b hne hsrc hdst
  exact ⟨herr, a - X, b + X, h1, h2, rfl, rfl, by ring⟩

/-- C14, witness: 30 units from `A` (balance 100) to `B` (balance 5). -/
theorem C14_transfer_moves_amount_witness :
    (MakePayment (mkStub2 "A" 100 "B" 5) "A" "B" 30).err = none
    ∧ ∃ a1 b1 : Int,
        (MakePayment (mkStub2 "A" 100 "B" 5) "A" "B" 30).stub.GetState "A" = some a1
        ∧ (MakePayment (mkStub2 "A" 100 "B" 5) "A" "B" 30).stub.GetState "B" = some b1
        ∧ a1 = 100 - 30 ∧ b1 = 5 + 30 ∧ a1 + b1 = 100 + 5 :=
  C14_transfer_moves_amount (mkStub2 "A" 100 "B" 5) "A" "B" 30 100 5
    (by decide) (by decide) (by decide) (by decide)

/-- C15 (counterexample).  It is not the case that `MakePayment` reports an
error and leaves the source balance unchanged whenever the amount exceeds the
source balance: moving 11 units from `A` (balance 10) to `B` (balance 0)
reports no error and stores `-1` for `A` and `11` for `B`. -/
theorem C15_overdraft_counterexample :
    ¬ (∀ (stub : Stub) (partySrc partyDst : String) (X a : Int),
        stub.GetState partySrc = some a → X > a →
        (MakePayment stub partySrc partyDst X).err ≠ none
        ∧ (MakePayment stub partySrc partyDst X).stub.GetState partySrc = stub.GetState partySrc
        ∧ (MakePayment stub partySrc partyDst X).stub.GetState partyDst
            = stub.GetState partyDst) := by
  intro h
  have h1 := (h (mkStub2 "A" 10 "B" 0) "A" "B" 11 10 (by decide) (by decide)).1
  revert h1
  decide

/-- C15 (amended).  When two distinct accounts both exist and the amount
exceeds the source balance, `MakePayment` reports no error and carries the
transfer out: the stored source balance is the old one minus the amount, which
is negative, and the stored destination balance is the old one plus the
amount. -/
theorem C15_overdraft_goes_through (stub : Stub) (partySrc partyDst : String) (X a b : Int)
    (hne : partySrc ≠ partyDst)
    (hsrc : stub.GetState partySrc = some a) (hdst : stub.GetState partyDst = some b)
    (hgt : X > a) :
    (MakePayment stub partySrc partyDst X).err = none
    ∧ (MakePayment stub partySrc partyDst X).stub.GetState partySrc = some (a - X)
    ∧ a - X < 0
    ∧ (MakePayment stub partySrc partyDst X).stub.GetState partyDst = some (b + X) := by
  obtain ⟨herr, h1, h2⟩ := MakePayment_distinct stub partySrc partyDst X a b hne hsrc hdst
  exact ⟨herr, h1, by omega, h2⟩

/-- C15, witness: 11 units from `A` (balance 10) to `B` (balance 0). -/
theorem C15_overdraft_goes_through_witness :
    (MakePayment (mkStub2 "A" 10 "B" 0) "A" "B" 11).err = none
    ∧ (MakePayment (mkStub2 "A" 10 "B" 0) "A" "B" 11).stub.GetState "A" = some (10 - 11)
    ∧ (10 : Int) - 11 < 0
    ∧ (MakePayment (mkStub2 "A" 10 "B" 0) "A" "B" 11).stub.GetState "B" = some (0 + 11) :=
  C15_overdraft_goes_through (mkStub2 "A" 10 "B" 0) "A" "B" 11 10 0
    (by decide) (by decide) (by decide) (by decide)

/-- C16.  When the source key or the destination key is absent, `MakePayment`
ends with `AccountNotFound` and the ledger store is the one before the call:
nothing was written. -/
theorem C16_transfer_account_not_found (stub : Stub) (partySrc partyDst : String) (X : Int)
    (habsent : stub.GetState partySrc = none ∨ stub.GetState partyDst = none) :
    MakePayment stub partySrc partyDst X = ⟨some Failure.accountNotFound, stub⟩ := by
  cases hsrc : stub.GetState partySrc with
  | none => simp only [MakePayment, hsrc]
  | some a =>
    rcases habsent with h | h
    · rw [hsrc] at h
      exact absurd h (by simp)
    · simp only [MakePayment, hsrc, h]

/-- C16, witness: a transfer to the absent account `C`, and one from it. -/
theorem C16_transfer_account_not_found_witness :
    MakePayment (mkStub2 "A" 100 "B" 5) "A" "C" 30
        = ⟨some Failure.accountNotFound, mkStub2 "A" 100 "B" 5⟩
    ∧ MakePayment (mkStub2 "A" 100 "B" 5) "C" "B" 30
        = ⟨some Failure.accountNotFound, mkStub2 "A" 100 "B" 5⟩ :=
  ⟨C16_transfer_account_not_found (mkStub2 "A" 100 "B" 5) "A" "C" 30 (Or.inr (by decide)),
    C16_transfer_account_not_found (mkStub2 "A" 100 "B" 5) "C" "B" 30 (Or.inl (by decide))⟩

/-- C17 (evaluation at the scenario with `t0 = 2`).  Account `A` with balance
1000, history `[{A, 1000, 2}]`, `stakeMinAge = 0`, `stakeMaxAge = 31536000`,
`now = 2 + 31536000`, `maxMineProofOfStake = 100000`, `decimals = 0`,
`stakeStartTime = 1`, total supply 1000 under a cap of `2^63 - 1`.  The interest
is the one of the first tier, `770000`, the mint succeeds, and balance and
total supply are both raised by the reward; but the coin-age is
`365000000000000`, not `365000`, the reward is `11914627107826645` (the product
of coin-age and interest wraps around), not `770000000`, and the one record
left in the history has amount `1000 + 2 * reward`, not `1000 + reward`. -/
theorem C17_scenario_at_failing_input :
    getCoinAge (mkConfig 1 0 31536000 100000) (mkStub "A" 1000 [⟨"A", 1000, 2⟩]) "A"
        (2 + 31536000) = (365000000000000, true)
    ∧ interest (mkConfig 1 0 31536000 100000) (2 + 31536000) = 770000
    ∧ getProofOfStakeReward (mkConfig 1 0 31536000 100000) (mkStub "A" 1000 [⟨"A", 1000, 2⟩]) "A"
        (2 + 31536000) = (11914627107826645, true)
    ∧ (MinePoS (mkConfig 1 0 31536000 100000) (mkStub "A" 1000 [⟨"A", 1000, 2⟩]) "A"
        (2 + 31536000)).ok = true
    ∧ (MinePoS (mkConfig 1 0 31536000 100000) (mkStub "A" 1000 [⟨"A", 1000, 2⟩]) "A"
        (2 + 31536000)).stub.GetState "A" = some (1000 + 11914627107826645)
    ∧ (MinePoS (mkConfig 1 0 31536000 100000) (mkStub "A" 1000 [⟨"A", 1000, 2⟩]) "A"
        (2 + 31536000)).t.totalSupply
        = (mkConfig 1 0 31536000 100000).totalSupply + 11914627107826645
    ∧ (MinePoS (mkConfig 1 0 31536000 100000) (mkStub "A" 1000 [⟨"A", 1000, 2⟩]) "A"
        (2 + 31536000)).stub.transferIns "A"
        = some [⟨"A", 1000 + 2 * 11914627107826645, 2 + 31536000⟩]
    ∧ (1000 : Int) * Int.tdiv 31536000 86400 = 365000
    ∧ Int.tdiv ((365000 : Int) * 770000) 365 = 770000000 := by
  refine ⟨?_, ?_, ?_, ?_, ?_, ?_, ?_, ?_, ?_⟩
  · decide
  · decide
  · decide
  · decide
  · decide
  · decide
  · decide
  · decide
  · decide

/-- C18 (evaluation at the failing input).  Moving 30 units from the account
`A` (balance 100) to `A` itself reports no error and stores the balance `130`,
not `100`. -/
theorem C18_self_transfer_at_failing_input :
    (mkStub2 "A" 100 "B" 5).GetState "A" = some 100
    ∧ (MakePayment (mkStub2 "A" 100 "B" 5) "A" "A" 30).err = none
    ∧ (MakePayment (mkStub2 "A" 100 "B" 5) "A" "A" 30).stub.GetState "A" = some 130 := by
  refine ⟨?_, ?_, ?_⟩
  · decide
  · decide
  · decide

/-! ## Claims on repeated mints and on the growth of the coin-age -/

/-- C19.  With `stakeMinAge >= 0` and `stakeMaxAge >= 0`, after a successful
`MinePoS` for an address at time `now`, a further `MinePoS` for the same address
on the resulting state at a time `now2` with `now <= now2 < now + 86400`
computes the coin-age 0, returns `false` without an error, and leaves the
contract state (with `totalSupply`) and the ledger store (balance and history)
as the first call left them. -/
theorem C19_no_double_reward (t : AerialCC) (stub : Stub) (party : String) (now now2 : Int)
    (_hmin : 0 ≤ t.stakeMinAge) (hmax : 0 ≤ t.stakeMaxAge)
    (hok : (MinePoS t stub party now).ok = true)
    (hge : now ≤ now2) (hlt : now2 < now + 86400) :
    (getCoinAge (MinePoS t stub party now).t (MinePoS t stub party now).stub party now2).1 = 0
    ∧ MinePoS (MinePoS t stub party now).t (MinePoS t stub party now).stub party now2
        = ⟨false, none, (MinePoS t stub party now).t, (MinePoS t stub party now).stub⟩ := by
  rcases MinePoS_cases t stub party now with ⟨hfalse, _, _⟩ | ⟨src, um, _, _, _, _, _, hres⟩
  · rw [hfalse] at hok
    exact absurd hok (by decide)
  · rw [hres]
    have hlog := mintedResult_transferIns t stub party now src
      (getProofOfStakeReward t stub party now).1
    have hbal := mintedResult_GetState t stub party now src
      (getProofOfStakeReward t stub party now).1
    have hmax1 : 0 ≤ (mintedResult t stub party now src
        (getProofOfStakeReward t stub party now).1).t.stakeMaxAge := hmax
    have hage : (getCoinAge (mintedResult t stub party now src
          (getProofOfStakeReward t stub party now).1).t
        (mintedResult t stub party now src (getProofOfStakeReward t stub party now).1).stub
        party now2).1 = 0 := by
      rw [getCoinAge_of_cons _ _ party now2 _ [] hlog]
      simp only [List.foldl_cons, List.foldl_nil]
      by_cases hskip : now2 < now + (mintedResult t stub party now src
          (getProofOfStakeReward t stub party now).1).t.stakeMinAge
      · simp [coinAgeStep, hskip]
      · have hq : Int.tdiv
            (if now2 - now > (mintedResult t stub party now src
                (getProofOfStakeReward t stub party now).1).t.stakeMaxAge
              then (mintedResult t stub party now src
                (getProofOfStakeReward t stub party now).1).t.stakeMaxAge
              else now2 - now) 86400 = 0 := by
          apply Int.tdiv_eq_zero_of_lt
          · split_ifs <;> omega
          · split_ifs <;> omega
        simp only [coinAgeStep, if_neg hskip, hq, zero_mul, mul_zero, add_zero, wrap64_zero]
    refine ⟨hage, ?_⟩
    apply MinePoS_of_no_reward _ _ party now2 _ _ hbal hlog
    rw [reward_zero_of_coinAge_nonpos _ _ party now2 (le_of_eq hage)]

/-- C19, witness: the mint of the account `A` (balance 50, one record staked
for one day) at time 86402, followed by a second call 86399 seconds later. -/
theorem C19_no_double_reward_witness :
    (MinePoS (mkConfig 1 0 86400 100) (mkStub "A" 50 [⟨"A", 50, 2⟩]) "A" 86402).ok = true
    ∧ (getCoinAge (MinePoS (mkConfig 1 0 86400 100) (mkStub "A" 50 [⟨"A", 50, 2⟩]) "A" 86402).t
          (MinePoS (mkConfig 1 0 86400 100) (mkStub "A" 50 [⟨"A", 50, 2⟩]) "A" 86402).stub "A"
          (86402 + 86399)).1 = 0
    ∧ MinePoS (MinePoS (mkConfig 1 0 86400 100) (mkStub "A" 50 [⟨"A", 50, 2⟩]) "A" 86402).t
          (MinePoS (mkConfig 1 0 86400 100) (mkStub "A" 50 [⟨"A", 50, 2⟩]) "A" 86402).stub "A"
          (86402 + 86399)
        = ⟨false, none,
            (MinePoS (mkConfig 1 0 86400 100) (mkStub "A" 50 [⟨"A", 50, 2⟩]) "A" 86402).t,
            (MinePoS (mkConfig 1 0 86400 100) (mkStub "A" 50 [⟨"A", 50, 2⟩]) "A" 86402).stub⟩ :=
  ⟨by decide,
    C19_no_double_reward (mkConfig 1 0 86400 100) (mkStub "A" 50 [⟨"A", 50, 2⟩]) "A" 86402
      (86402 + 86399) (by decide) (by decide) (by decide) (by decide) (by decide)⟩

/-- C20 (counterexample).  It is not the case that the coin-age is
non-negative and non-decreasing in `now` for every history of non-negative
amounts: for the single record of amount `10000000000` at time 0, with
`stakeMinAge = 0` and `stakeMaxAge = 86400`, the coin-age is `0` at `now = 0`
and `-8446744073709551616` at `now = 86400`, where the term `10^19` wraps
around. -/
theorem C20_coinAge_overflow_counterexample :
    ¬ (∀ (t : AerialCC) (stub : Stub) (party : String) (now1 now2 : Int),
        0 ≤ t.stakeMinAge → 0 ≤ t.stakeMaxAge →
        (∀ um, stub.transferIns party = some um → ∀ r ∈ um, 0 ≤ r.Amount) →
        now1 ≤ now2 →
        0 ≤ (getCoinAge t stub party now1).1
        ∧ (getCoinAge t stub party now1).1 ≤ (getCoinAge t stub party now2).1) := by
  intro h
  have h1 := (h (mkConfig 1 0 86400 100) (mkStub "A" 10000000000 [⟨"A", 10000000000, 0⟩]) "A"
    0 86400 (by decide) (by decide)
    (by
      intro um hum r hr
      have hum1 : [(⟨"A", 10000000000, 0⟩ : TransferInStruct)] = um := by
        simpa [mkStub] using hum
      subst hum1
      simp only [List.mem_singleton] at hr
      rw [hr]
      decide)
    (by decide)).2
  revert h1
  decide

/-- C20 (amended).  With `stakeMinAge >= 0`, `stakeMaxAge >= 0`, a stored history
whose record amounts are all non-negative, and `now1 <= now2` such that the
total of the terms of the loop at `now2`, taken over the integers, is below
`2^63` (the loop does not overflow), the coin-age returned by `getCoinAge` at
`now1` is non-negative and at most the coin-age at `now2`. -/
theorem C20_coinAge_nonneg_mono_in_range (t : AerialCC) (stub : Stub) (party : String)
    (now1 now2 : Int) (hmin : 0 ≤ t.stakeMinAge) (hmax : 0 ≤ t.stakeMaxAge)
    (hamt : ∀ um, stub.transferIns party = some um → ∀ r ∈ um, 0 ≤ r.Amount)
    (hrange : ∀ um, stub.transferIns party = some um → coinAgeExact t now2 um < 2 ^ 63)
    (hle : now1 ≤ now2) :
    0 ≤ (getCoinAge t stub party now1).1
    ∧ (getCoinAge t stub party now1).1 ≤ (getCoinAge t stub party now2).1 := by
  cases hlog : stub.transferIns party with
  | none => simp [getCoinAge, Stub.GetTransferIns, hlog]
  | some um =>
    cases um with
    | nil => simp [getCoinAge, Stub.GetTransferIns, hlog]
    | cons r rs =>
      obtain ⟨h0, h1⟩ := coinAgeExact_nonneg_mono t now1 now2 hmin hmax hle (r :: rs)
        (hamt (r :: rs) hlog)
      have h2 := hrange (r :: rs) hlog
      rw [getCoinAge_of_cons t stub party now1 r rs hlog,
        getCoinAge_of_cons t stub party now2 r rs hlog,
        foldl_coinAgeStep_zero, foldl_coinAgeStep_zero,
        wrap64_of_range _ (by linarith) (by linarith),
        wrap64_of_range _ (by linarith) h2]
      exact ⟨h0, h1⟩

/-- C20, witness: two records of amounts 5 and 7, at the times 100000 and
200000. -/
theorem C20_coinAge_nonneg_mono_in_range_witness :
    0 ≤ (getCoinAge (mkConfig 1 0 2000000 100) (mkStub "A" 12 [⟨"A", 5, 1000⟩, ⟨"A", 7, 3000⟩])
          "A" 100000).1
    ∧ (getCoinAge (mkConfig 1 0 2000000 100) (mkStub "A" 12 [⟨"A", 5, 1000⟩, ⟨"A", 7, 3000⟩])
          "A" 100000).1
        ≤ (getCoinAge (mkConfig 1 0 2000000 100)
            (mkStub "A" 12 [⟨"A", 5, 1000⟩, ⟨"A", 7, 3000⟩]) "A" 200000).1 :=
  C20_coinAge_nonneg_mono_in_range (mkConfig 1 0 2000000 100)
    (mkStub "A" 12 [⟨"A", 5, 1000⟩, ⟨"A", 7, 3000⟩]) "A" 100000 200000 (by decide) (by decide)
    (by
      intro um hum r hr
      have hum1 : [(⟨"A", 5, 1000⟩ : TransferInStruct), ⟨"A", 7, 3000⟩] = um := by
        simpa [mkStub] using hum
      subst hum1
      simp only [List.mem_cons, List.mem_singleton, List.not_mem_nil, or_false] at hr
      rcases hr with h | h
      · rw [h]
        decide
      · rw [h]
        decide)
    (by
      intro um hum
      have hum1 : [(⟨"A", 5, 1000⟩ : TransferInStruct), ⟨"A", 7, 3000⟩] = um := by
        simpa [mkStub] using hum
      subst hum1
      decide)
    (by decide)

end Cryptorial
